import Mathlib

/-!
# Verification of the Instagram batch fetch-and-persist engine

A shallow embedding, in Lean 4, of the core of the
`instagram-user-processor` repository:

* the batch HTTP handler `BatchProcessUsersHandler`
  (`pkg/api/instagram/handlers.go`): validation, normalization,
  per-item worker body, result collection with deadline padding,
  summary computation and final sort;
* the retry wrapper `retryWithBackoff` and its constants
  (`pkg/external`): exponential backoff, no-retry on
  `UserNotFoundError`, context-aware waits;
* the worker pool and rate-limited worker pool (`pkg/queue/worker.go`):
  task intake, worker loop, `Stop`, and the token-bucket refiller.

Pure functions of the Go source become Lean functions; the
concurrent parts (worker pool lifecycle, token bucket) become explicit
transition systems whose nondeterministic steps cover all interleavings
the Go scheduler can produce.  Machine integers are modelled as `Int`
(Go `int`) or `Nat` for values the code keeps nonnegative; wall-clock
times are abstract `Nat` ticks (no claim inspects them).
-/

namespace InstagramProcessor

/-! ## Data model (`pkg/api/instagram/models.go`)

`database.User` has many scalar fields none of which the handler logic
inspects; the embedding is therefore polymorphic in the user-record
type `U`, keeping the record payload opaque but faithfully tracked. -/

/-- `UserResult` from `pkg/api/instagram/models.go`: the per-item outcome.
`user` models the `*database.User` pointer (`none` = `nil`), `error` the
error message string (`""` = omitted), `processedAt` the timestamp as an
abstract tick. -/
structure UserResult (U : Type) where
  username : String
  status : String
  user : Option U
  error : String
  processedAt : Nat
  deriving DecidableEq, Repr

/-- `Summary` from `pkg/api/instagram/models.go`.  `DurationSeconds`
(a `float64` derived from the two timestamps) is not modelled. -/
structure Summary where
  total : Nat
  successful : Nat
  failed : Nat
  startedAt : Nat
  completedAt : Nat
  deriving DecidableEq, Repr

/-- `BatchResponse` from `pkg/api/instagram/models.go`. -/
structure BatchResponse (U : Type) where
  results : List (UserResult U)
  summary : Summary
  deriving DecidableEq, Repr

/-- `BatchRequest` from `pkg/api/instagram/models.go`; the two ints are
Go `int`, modelled as `Int`. -/
structure BatchRequest where
  usernames : List String
  maxConcurrency : Int
  timeoutSeconds : Int
  deriving DecidableEq, Repr

/-- The three `StatusBadRequest` rejections of `BatchProcessUsersHandler`
(`handlers.go`): empty `usernames`, more than 100 usernames, and no
valid usernames left after normalization. -/
inductive BatchError where
  | emptyUsernames
  | tooManyUsernames
  | noValidUsernames
  deriving DecidableEq, Repr

/-! ## Go string primitives

`strings.ToLower`, `strings.TrimSpace` and the Go `<` on strings,
modelled structurally over the character list of a `String` (the
usernames handled by the service are ASCII, where rune-wise and
byte-wise comparison agree). -/

/-- `strings.ToLower`: lowercase every character. -/
def goToLower (s : String) : String :=
  ⟨s.data.map Char.toLower⟩

/-- `strings.TrimSpace`: drop leading and trailing whitespace. -/
def goTrimSpace (s : String) : String :=
  ⟨(((s.data.dropWhile Char.isWhitespace).reverse).dropWhile
      Char.isWhitespace).reverse⟩

/-- Lexicographic `<` on character lists, comparing code points. -/
def goLtList : List Char → List Char → Bool
  | _, [] => false
  | [], _ :: _ => true
  | a :: as, b :: bs =>
    if a.toNat < b.toNat then true
    else if b.toNat < a.toNat then false
    else goLtList as bs

/-- Go's `<` on strings. -/
def goStringLt (a b : String) : Bool :=
  goLtList a.data b.data

/-! ## Normalization and configuration defaults (`handlers.go` 140-177) -/

/-- The normalization loop of `BatchProcessUsersHandler` (`handlers.go`
158-171): for each raw username compute
`strings.TrimSpace(strings.ToLower(u))`, skip it when empty or already
seen, otherwise append it.  `acc` holds the already-appended names in
reverse; membership in `acc` models the `seen` map. -/
def normLoop : List String → List String → List String
  | [], acc => acc.reverse
  | u :: rest, acc =>
    let uname := goTrimSpace (goToLower u)
    if uname = "" then normLoop rest acc
    else if acc.contains uname then normLoop rest acc
    else normLoop rest (uname :: acc)

/-- The deduplicated, normalized username list (`unique` in the Go). -/
def normalizeUsernames (usernames : List String) : List String :=
  normLoop usernames []

/-- The concurrency defaulting/clamping of `handlers.go` 141-146:
`if mc <= 0 { mc = 5 }; if mc > 20 { mc = 20 }`. -/
def effectiveConcurrency (mc : Int) : Int :=
  let mc1 := if mc ≤ 0 then 5 else mc
  if mc1 > 20 then 20 else mc1

/-- The timeout defaulting of `handlers.go` 148-150:
`if ts <= 0 { ts = 300 }`. -/
def effectiveTimeout (ts : Int) : Int :=
  if ts ≤ 0 then 300 else ts

/-! ## Per-item worker body (`handlers.go` 195-234) -/

/-- The per-item environment a worker observes while processing one
username: the outcome of each external interaction, in program order.
`ctxDoneAtStart` is the first `select` on `ctx.Done()`; `dbUser` is
`some u` exactly when `database.GetUserByUsername` returned
`err == nil && user != nil`; `ctxDoneAtRate` is the `select` racing
`ctx.Done()` against the rate ticker; `scrape` is the outcome of
`external.ScrapeInstagramUser` (error message on failure); `upsertErr`
is the error of `database.UpsertUser`, `none` on success. -/
structure ItemEnv (U : Type) where
  ctxDoneAtStart : Bool
  dbUser : Option U
  ctxDoneAtRate : Bool
  scrape : Except String U
  upsertErr : Option String
  deriving Repr

/-- The body of the `worker` closure of `BatchProcessUsersHandler`
(`handlers.go` 195-234) for a single job, as a function of the observed
environment.  Note that a failed upsert is only logged: the result is
still `status = "success"` with the scraped user. -/
def workerStep (U : Type) (ctxErrMsg : String) (now : Nat)
    (username : String) (env : ItemEnv U) : UserResult U :=
  if env.ctxDoneAtStart then
    ⟨username, "error", none, ctxErrMsg, now⟩
  else
    match env.dbUser with
    | some user => ⟨username, "success", some user, "", now⟩
    | none =>
      if env.ctxDoneAtRate then
        ⟨username, "error", none, ctxErrMsg, now⟩
      else
        match env.scrape with
        | .error e => ⟨username, "error", none, e, now⟩
        | .ok scraped => ⟨username, "success", some scraped, "", now⟩

/-! ## Result collection (`handlers.go` 256-272) -/

/-- The result synthesized in the `ctx.Done()` branch of the collection
loop (`handlers.go` 265): only `Status`, `Error` and `ProcessedAt` are
set, so `Username` is the zero string and `User` is `nil`. -/
def synthResult (U : Type) (ctxErrMsg : String) (now : Nat) : UserResult U :=
  ⟨"", "error", none, ctxErrMsg, now⟩

/-- The collection loop of `handlers.go` 256-272.  `n` is
`len(unique) - completed`; `arrivals` is the sequence of results the
loop receives from the `results` channel before the deadline fires.
When the deadline fires (modelled by `arrivals` being exhausted) every
remaining slot is padded with `synthResult`. -/
def collectResults (U : Type) (ctxErrMsg : String) (now : Nat) :
    Nat → List (UserResult U) → List (UserResult U)
  | 0, _ => []
  | n + 1, [] => List.replicate (n + 1) (synthResult U ctxErrMsg now)
  | n + 1, r :: rs => r :: collectResults U ctxErrMsg now n rs

/-- The summary counting loop of `handlers.go` 275-283: `success++` when
`Status == "success"`, else `fail++`. -/
def countSuccess (U : Type) (rs : List (UserResult U)) : Nat :=
  rs.countP (fun r => r.status = "success")

/-- The `fail` counter of the same loop. -/
def countFail (U : Type) (rs : List (UserResult U)) : Nat :=
  rs.countP (fun r => ¬ (r.status = "success"))

/-- Insert one result into a username-sorted list, after every entry
whose username is strictly smaller (`collected[i].Username <
collected[j].Username`, the comparator of `handlers.go` 286) and before
every other entry, so equal usernames keep their original order. -/
def insertByUsername (U : Type) (r : UserResult U) :
    List (UserResult U) → List (UserResult U)
  | [] => [r]
  | s :: rest =>
    if goStringLt s.username r.username then s :: insertByUsername U r rest
    else r :: s :: rest

/-- The final `sort.SliceStable(collected, less)` of `handlers.go` 286:
a stable sort by `Username`.  Stable sorting has a unique result, so it
is modelled by stable insertion sort with the same `<` comparator. -/
def sortResults (U : Type) : List (UserResult U) → List (UserResult U)
  | [] => []
  | r :: rest => insertByUsername U r (sortResults U rest)

/-! ## The batch pipeline (`handlers.go` 115-302) -/

/-- The batch-scoped environment: everything the handler observes from
the scheduler and the collaborators during one invocation.  `arrivals`
is the list of results delivered on the `results` channel before the
overall deadline, in delivery order. -/
structure BatchEnv (U : Type) where
  arrivals : List (UserResult U)
  ctxErrMsg : String
  nowSynth : Nat
  startedAt : Nat
  completedAt : Nat
  deriving Repr

/-- `BatchProcessUsersHandler` (`handlers.go` 115-302) as a function of
the request and the batch environment: validation and defaulting, then
normalization, then collection, summary and sort.  A `.error` models a
`StatusBadRequest` JSON response before any work is dispatched; `.ok`
models the final `StatusOK` `BatchResponse`. -/
def batchProcessUsers (U : Type) (req : BatchRequest) (env : BatchEnv U) :
    Except BatchError (BatchResponse U) :=
  if req.usernames.length = 0 then .error .emptyUsernames
  else if req.usernames.length > 100 then .error .tooManyUsernames
  else
    let unique := normalizeUsernames req.usernames
    if unique.length = 0 then .error .noValidUsernames
    else
      let collected := collectResults U env.ctxErrMsg env.nowSynth unique.length env.arrivals
      let success := countSuccess U collected
      let fail := countFail U collected
      let sorted := sortResults U collected
      .ok { results := sorted
            summary :=
              { total := unique.length
                successful := success
                failed := fail
                startedAt := env.startedAt
                completedAt := env.completedAt } }

/-! ## Retry wrapper (`pkg/external`, `retryWithBackoff`) -/

/-- `maxRetries = 5` from `pkg/external`. -/
def maxRetries : Nat := 5

/-- `baseDelayMS = 500` from `pkg/external`. -/
def baseDelayMS : Nat := 500

/-- The Go errors flowing through `retryWithBackoff`: the typed
`UserNotFoundError`, any other (generic, wrapped) error, and the error
returned by `ctx.Err()` when the context ends during a backoff wait. -/
inductive GoErr where
  | userNotFound (username message : String)
  | generic (message : String)
  | ctxError (message : String)
  deriving DecidableEq, Repr

/-- `RocketAPIResponse` from `pkg/external` (the `Response.Body` raw
JSON is kept as an opaque string; `StatusCode` is not read by the retry
logic). -/
structure RocketAPIResponse where
  status : String
  message : String
  body : String
  deriving DecidableEq, Repr

/-- One `(resp, body, err)` triple returned by the `operation` closure,
as consumed and produced by `retryWithBackoff`.  `none` models a `nil`
pointer / slice / error. -/
structure OpResult where
  resp : Option RocketAPIResponse
  body : Option String
  err : Option GoErr
  deriving DecidableEq, Repr

/-- The success test of `retryWithBackoff`:
`err == nil && resp != nil && resp.Status != "error"`. -/
def attemptSucceeded (o : OpResult) : Bool :=
  o.err.isNone &&
    (match o.resp with
     | some r => !(r.status == "error")
     | none => false)

/-- The `errors.As(err, &userNotFoundErr)` test of `retryWithBackoff`. -/
def isUserNotFound : Option GoErr → Bool
  | some (.userNotFound _ _) => true
  | _ => false

/-- The observable outcome of one `retryWithBackoff` call: how many
times `operation` was invoked, the completed backoff waits (in ms, in
order), and the returned `(resp, body, err)` triple. -/
structure RetryOutcome where
  calls : Nat
  waits : List Nat
  result : OpResult
  deriving DecidableEq, Repr

/-- The `for attempt := 0; attempt < maxRetries; attempt++` loop of
`retryWithBackoff` (`pkg/external`).  `op n` is the outcome of the
`n`-th `operation()` call; `cd n` is whether the context ends during
the wait following attempt `n`; `ctxe` is the value of `ctx.Err()`.
`fuel = maxRetries - attempt`; the `fuel = 1` branch is the
`attempt == maxRetries-1` break, after which `(nil, lastBody, lastErr)`
is returned. -/
def retryLoop (op : Nat → OpResult) (cd : Nat → Bool) (ctxe : GoErr) :
    Nat → Nat → Option GoErr → Option String → RetryOutcome
  | 0, _, lastErr, lastBody => ⟨0, [], ⟨none, lastBody, lastErr⟩⟩
  | fuel + 1, attempt, _, _ =>
    let o := op attempt
    if attemptSucceeded o then ⟨1, [], o⟩
    else if isUserNotFound o.err then ⟨1, [], o⟩
    else if fuel = 0 then ⟨1, [], ⟨none, o.body, o.err⟩⟩
    else if cd attempt then ⟨1, [], ⟨none, none, some ctxe⟩⟩
    else
      let rest := retryLoop op cd ctxe fuel (attempt + 1) o.err o.body
      ⟨1 + rest.calls, baseDelayMS * 2 ^ attempt :: rest.waits, rest.result⟩

/-- `retryWithBackoff` (`pkg/external`): run the loop from attempt 0
with `maxRetries` budget and `lastErr = nil`, `lastBody = nil`. -/
def retryWithBackoff (op : Nat → OpResult) (cd : Nat → Bool) (ctxe : GoErr) :
    RetryOutcome :=
  retryLoop op cd ctxe maxRetries 0 none none

/-- Modelled from the spec: the `ErrorKind` enumeration of the spec's
data model (`NotFound, RateLimited, Transient, Timeout, Cancelled,
PersistFailed`).  The Go source has no such enumeration — it
distinguishes errors only by the `errors.As` test on
`UserNotFoundError`. -/
inductive ErrorKind where
  | notFound
  | rateLimited
  | transient
  | timeout
  | cancelled
  | persistFailed
  deriving DecidableEq, Repr

/-- Modelled from the spec: the classification the code implicitly
applies to errors reaching `retryWithBackoff` — `UserNotFoundError` is
the permanent `NotFound` kind, any other (generic) failure is retried
and hence `Transient`, and a context error is `Cancelled`. -/
def classifyErr : GoErr → ErrorKind
  | .userNotFound _ _ => .notFound
  | .generic _ => .transient
  | .ctxError _ => .cancelled

/-! ## Worker pool (`pkg/queue/worker.go`)

The pool's concurrent lifecycle is modelled as a transition system.
Tasks are identified by `Nat` ids; a state records the buffered
`taskChan` contents, the log of tasks accepted by `EnqueueTask`
(returned `nil`), the log of tasks a worker has run, whether the
channel is closed / the pool context cancelled, and the number of live
worker goroutines. -/

/-- A snapshot of a `WorkerPool`'s observable state. -/
structure PoolState where
  queue : List Nat
  accepted : List Nat
  processed : List Nat
  closed : Bool
  cancelled : Bool
  workers : Nat
  deriving DecidableEq, Repr

/-- The pool right after `NewWorkerPool` + `Start()`: empty buffer, no
logs, channel open, context live, `numWorkers` workers running. -/
def initPool (numWorkers : Nat) : PoolState :=
  ⟨[], [], [], false, false, numWorkers⟩

/-- One scheduler step of the pool, for a buffer of size `bufferSize`
(≥ 1, as `NewWorkerPool` forces).
* `enqueue`: `EnqueueTask` returns `nil` — the buffered send wins the
  `select`, possible whenever the channel is open and not full (Go's
  `select` may pick the ready send even when `ctx.Done` is also ready).
* `take`: a worker receives the head task and `processTask` runs it.
* `exitClosed`: a worker sees the channel closed and drained and
  returns.
* `exitCancelled`: a worker's `select` picks `<-wp.ctx.Done()` and
  returns — possible whenever the context is cancelled, even with
  tasks still buffered.
* `cancel`: `wp.cancel()` (from `WaitForCompletion` on context end, or
  the tail of `Stop`).
* `close`: `close(wp.taskChan)` (the first action of `Stop`). -/
inductive PoolStep (bufferSize : Nat) : PoolState → PoolState → Prop where
  | enqueue (t : Nat) (s : PoolState) :
      s.closed = false → s.queue.length < bufferSize →
      PoolStep bufferSize s
        { s with queue := s.queue ++ [t], accepted := s.accepted ++ [t] }
  | take (t : Nat) (rest : List Nat) (s : PoolState) :
      0 < s.workers → s.queue = t :: rest →
      PoolStep bufferSize s
        { s with queue := rest, processed := s.processed ++ [t] }
  | exitClosed (s : PoolState) :
      0 < s.workers → s.closed = true → s.queue = [] →
      PoolStep bufferSize s { s with workers := s.workers - 1 }
  | exitCancelled (s : PoolState) :
      0 < s.workers → s.cancelled = true →
      PoolStep bufferSize s { s with workers := s.workers - 1 }
  | cancel (s : PoolState) :
      PoolStep bufferSize s { s with cancelled := true }
  | close (s : PoolState) :
      PoolStep bufferSize s { s with closed := true }

/-- All states the pool can reach from `Start`. -/
def PoolReachable (bufferSize numWorkers : Nat) (s : PoolState) : Prop :=
  Relation.ReflTransGen (PoolStep bufferSize) (initPool numWorkers) s

/-- `Stop()` has returned: the channel was closed and `wg.Wait()`
observed every worker goroutine gone. -/
def stopReturned (s : PoolState) : Prop :=
  s.closed = true ∧ s.workers = 0

/-! ## Token bucket (`RateLimitedWorkerPool`, `pkg/queue/worker.go`)

The `rateLimiter` channel of capacity `requestsPerSecond` is modelled
by its buffered-token count.  `NewRateLimitedWorkerPool` fills it to
capacity; `refillRateLimiter` performs a non-blocking send per tick
(dropping the token when full); `WaitForRateLimit` receives one
token. -/

/-- The two operations that mutate the token channel. -/
inductive TokenOp where
  | refill
  | acquire
  deriving DecidableEq, Repr

/-- Effect of one operation on the buffered-token count, for a channel
of capacity `cap`: `refill` is the `select` with `default` in
`refillRateLimiter` (send succeeds only if the buffer has room);
`acquire` is a receive in `WaitForRateLimit` (only succeeds when a
token is buffered). -/
def applyTokenOp (cap : Nat) : Nat → TokenOp → Nat
  | tokens, .refill => if tokens < cap then tokens + 1 else tokens
  | tokens, .acquire => if 0 < tokens then tokens - 1 else tokens

/-- Token count after an arbitrary interleaving of refills and
acquires, starting from the full bucket `NewRateLimitedWorkerPool`
creates. -/
def runTokenOps (cap : Nat) (ops : List TokenOp) : Nat :=
  ops.foldl (applyTokenOp cap) cap

/-! ## Helper lemmas: the Go string order -/

theorem goLtList_nil_right : ∀ a : List Char, goLtList a [] = false
  | [] => rfl
  | _ :: _ => rfl

theorem goLtList_nil_left_eq_false {l : List Char}
    (h : goLtList [] l = false) : l = [] := by
  cases l with
  | nil => rfl
  | cons a as => simp [goLtList] at h

theorem goLtList_asymm : ∀ (a b : List Char),
    goLtList a b = true → goLtList b a = false
  | [], [], h => by simp [goLtList] at h
  | [], _ :: _, _ => goLtList_nil_right _
  | _ :: _, [], h => by simp [goLtList] at h
  | x :: xs, y :: ys, h => by
    simp only [goLtList] at h ⊢
    by_cases h1 : x.toNat < y.toNat
    · have h2 : ¬ y.toNat < x.toNat := by omega
      simp [h1, h2]
    · by_cases h2 : y.toNat < x.toNat
      · simp [h1, h2] at h
      · simp only [h1, h2, if_false] at h ⊢
        exact goLtList_asymm xs ys h

theorem goLtList_false_trans : ∀ (a b c : List Char),
    goLtList a b = false → goLtList b c = false → goLtList a c = false
  | _, _, [], _, _ => goLtList_nil_right _
  | _, [], _ :: _, _, hbc => by simp [goLtList] at hbc
  | [], _ :: _, _ :: _, hab, _ => by simp [goLtList] at hab
  | x :: xs, y :: ys, z :: zs, hab, hbc => by
    simp only [goLtList] at hab hbc ⊢
    by_cases h1 : x.toNat < y.toNat
    · simp [h1] at hab
    · by_cases h2 : y.toNat < z.toNat
      · simp [h2] at hbc
      · by_cases h3 : x.toNat < z.toNat
        · exact absurd h3 (by omega)
        · by_cases h4 : z.toNat < x.toNat
          · simp [h3, h4]
          · have h5 : ¬ y.toNat < x.toNat := by omega
            have h6 : ¬ z.toNat < y.toNat := by omega
            simp only [h1, h5, if_false] at hab
            simp only [h2, h6, if_false] at hbc
            simp only [h3, h4, if_false]
            exact goLtList_false_trans xs ys zs hab hbc

theorem goStringLt_nil_left_eq_false {s : String}
    (h : goStringLt "" s = false) : s = "" := by
  obtain ⟨d⟩ := s
  have : d = [] := goLtList_nil_left_eq_false h
  simp [this]

/-! ## Helper lemmas: sorting -/

/-- The order the final sort establishes: `a` may precede `b` when
`b.Username` is not strictly below `a.Username`. -/
def usernameLE (U : Type) (a b : UserResult U) : Prop :=
  goStringLt b.username a.username = false

theorem mem_insertByUsername (U : Type) (r x : UserResult U)
    (l : List (UserResult U)) :
    x ∈ insertByUsername U r l ↔ x = r ∨ x ∈ l := by
  induction l with
  | nil => simp [insertByUsername]
  | cons s rest ih =>
    rw [insertByUsername]
    split_ifs <;> · simp [ih]; try tauto

theorem length_insertByUsername (U : Type) (r : UserResult U)
    (l : List (UserResult U)) :
    (insertByUsername U r l).length = l.length + 1 := by
  induction l with
  | nil => rfl
  | cons s rest ih =>
    rw [insertByUsername]
    split_ifs <;> simp [ih]

theorem length_sortResults (U : Type) (l : List (UserResult U)) :
    (sortResults U l).length = l.length := by
  induction l with
  | nil => rfl
  | cons r rest ih => rw [sortResults, length_insertByUsername, ih]; rfl

theorem pairwise_insertByUsername (U : Type) (r : UserResult U)
    (l : List (UserResult U)) (h : l.Pairwise (usernameLE U)) :
    (insertByUsername U r l).Pairwise (usernameLE U) := by
  induction l with
  | nil => simp [insertByUsername, usernameLE]
  | cons s rest ih =>
    rw [List.pairwise_cons] at h
    obtain ⟨hs, hrest⟩ := h
    rw [insertByUsername]
    split_ifs with hc
    · rw [List.pairwise_cons]
      refine ⟨?_, ih hrest⟩
      intro x hx
      rcases (mem_insertByUsername U r x rest).1 hx with rfl | hxl
      · exact goLtList_asymm _ _ hc
      · exact hs x hxl
    · rw [List.pairwise_cons]
      refine ⟨?_, List.pairwise_cons.2 ⟨hs, hrest⟩⟩
      intro x hx
      rcases List.mem_cons.1 hx with rfl | hxl
      · exact Bool.of_not_eq_true hc
      · exact goLtList_false_trans _ _ _ (hs x hxl) (Bool.of_not_eq_true hc)

theorem pairwise_sortResults (U : Type) (l : List (UserResult U)) :
    (sortResults U l).Pairwise (usernameLE U) := by
  induction l with
  | nil => simp [sortResults]
  | cons r rest ih => exact pairwise_insertByUsername U r _ ih

/-! ## Helper lemmas: collection and counting -/

theorem length_collectResults (U : Type) (c : String) (now : Nat) :
    ∀ (n : Nat) (arr : List (UserResult U)),
    (collectResults U c now n arr).length = n
  | 0, _ => rfl
  | n + 1, [] => by simp [collectResults]
  | n + 1, _ :: rs => by
    simp [collectResults, length_collectResults U c now n rs]

theorem collectResults_eq_take_append (U : Type) (c : String) (now : Nat) :
    ∀ (n : Nat) (arr : List (UserResult U)),
    collectResults U c now n arr =
      arr.take n ++ List.replicate (n - arr.length) (synthResult U c now)
  | 0, _ => by simp [collectResults]
  | n + 1, [] => by simp [collectResults]
  | n + 1, r :: rs => by
    simp [collectResults, collectResults_eq_take_append U c now n rs,
      List.take_succ_cons, Nat.succ_sub_succ]

theorem countSuccess_add_countFail (U : Type) (rs : List (UserResult U)) :
    countSuccess U rs + countFail U rs = rs.length := by
  induction rs with
  | nil => rfl
  | cons r rest ih =>
    by_cases h : r.status = "success" <;>
      simp only [countSuccess, countFail, List.countP_cons, h] at * <;>
      simp_all <;> omega

theorem countFail_replicate_synth (U : Type) (c : String) (now : Nat)
    (k : Nat) :
    countFail U (List.replicate k (synthResult U c now)) = k := by
  induction k with
  | zero => rfl
  | succ k ih =>
    rw [List.replicate_succ]
    simp only [countFail, List.countP_cons] at *
    rw [ih]
    simp [synthResult]

/-! ## Helper lemmas: normalization -/

theorem mem_normLoop (v : String) :
    ∀ (us acc : List String), v ∈ normLoop us acc →
      v ∈ acc ∨ ((∃ u ∈ us, v = goTrimSpace (goToLower u)) ∧ v ≠ "")
  | [], _, hv => by
    left; simpa [normLoop] using hv
  | u :: rest, acc, hv => by
    simp only [normLoop] at hv
    split_ifs at hv with h1 h2
    · rcases mem_normLoop v rest acc hv with h | ⟨⟨w, hw, he⟩, hne⟩
      · exact .inl h
      · exact .inr ⟨⟨w, List.mem_cons_of_mem u hw, he⟩, hne⟩
    · rcases mem_normLoop v rest acc hv with h | ⟨⟨w, hw, he⟩, hne⟩
      · exact .inl h
      · exact .inr ⟨⟨w, List.mem_cons_of_mem u hw, he⟩, hne⟩
    · rcases mem_normLoop v rest _ hv with h | ⟨⟨w, hw, he⟩, hne⟩
      · rcases List.mem_cons.1 h with rfl | h3
        · exact .inr ⟨⟨u, List.mem_cons_self u rest, rfl⟩, h1⟩
        · exact .inl h3
      · exact .inr ⟨⟨w, List.mem_cons_of_mem u hw, he⟩, hne⟩

theorem nodup_normLoop : ∀ (us acc : List String), acc.Nodup →
    (normLoop us acc).Nodup
  | [], _, h => by simpa [normLoop] using h
  | u :: rest, acc, h => by
    simp only [normLoop]
    split_ifs with h1 h2
    · exact nodup_normLoop rest acc h
    · exact nodup_normLoop rest acc h
    · refine nodup_normLoop rest _ ?_
      rw [List.nodup_cons]
      exact ⟨fun hmem => h2 (by simpa using hmem), h⟩

/-! ## Helper lemmas: the token bucket -/

theorem applyTokenOp_le_cap (cap t : Nat) (o : TokenOp) (h : t ≤ cap) :
    applyTokenOp cap t o ≤ cap := by
  cases o <;> simp only [applyTokenOp] <;> split_ifs <;> omega

theorem foldl_tokenOps_le_cap (cap : Nat) :
    ∀ (ops : List TokenOp) (t : Nat), t ≤ cap →
      ops.foldl (applyTokenOp cap) t ≤ cap
  | [], _, h => h
  | o :: ops, t, h =>
    foldl_tokenOps_le_cap cap ops _ (applyTokenOp_le_cap cap t o h)

/-! ## Helper lemmas: the worker pool invariant -/

/-- The inductive invariant of the pool transition system for a pool
started with `n` workers: the accepted log is exactly the processed log
plus the still-buffered tasks; while the pool is live and uncancelled no
worker has exited; and an uncancelled pool whose workers have all
returned after `close` has drained its buffer. -/
def poolInvariant (n : Nat) (s : PoolState) : Prop :=
  (s.processed ++ s.queue).Perm s.accepted ∧
  (s.cancelled = false → s.closed = false → s.workers = n) ∧
  (s.cancelled = false → s.closed = true → s.workers = 0 → s.queue = [])

theorem poolInvariant_init (n : Nat) (hn : 1 ≤ n) :
    poolInvariant n (initPool n) := by
  refine ⟨by simp [initPool], fun _ _ => rfl, fun _ _ h => ?_⟩
  exact absurd h (by simp [initPool]; omega)

theorem poolInvariant_step (B n : Nat) (hn : 1 ≤ n) (s s' : PoolState)
    (h : poolInvariant n s) (hs : PoolStep B s s') : poolInvariant n s' := by
  obtain ⟨hperm, hlive, hdrained⟩ := h
  cases hs with
  | enqueue t s hopen hroom =>
    refine ⟨?_, ?_, ?_⟩
    · show ((s.processed ++ (s.queue ++ [t]))).Perm (s.accepted ++ [t])
      rw [← List.append_assoc]
      exact hperm.append_right [t]
    · intro hca hcl
      exact hlive hca hcl
    · intro hca hcl hw
      exact absurd (show s.closed = true from hcl) (by rw [hopen]; simp)
  | take t rest s hworkers hqueue =>
    refine ⟨?_, ?_, ?_⟩
    · show ((s.processed ++ [t]) ++ rest).Perm s.accepted
      rw [List.append_assoc]
      rw [hqueue] at hperm
      simpa using hperm
    · intro hca hcl
      exact hlive hca hcl
    · intro hca hcl hw
      have hw0 : s.workers = 0 := hw
      omega
  | exitClosed s hworkers hclosed hqueue =>
    refine ⟨hperm, ?_, fun _ _ _ => hqueue⟩
    intro hca hcl
    exact absurd hclosed (by rw [show s.closed = false from hcl]; simp)
  | exitCancelled s hworkers hcanc =>
    refine ⟨hperm, ?_, ?_⟩
    · intro hca
      exact absurd hcanc (by rw [show s.cancelled = false from hca]; simp)
    · intro hca
      exact absurd hcanc (by rw [show s.cancelled = false from hca]; simp)
  | cancel s =>
    refine ⟨hperm, ?_, ?_⟩
    · intro hca
      exact absurd (show (true : Bool) = false from hca) (by simp)
    · intro hca
      exact absurd (show (true : Bool) = false from hca) (by simp)
  | close s =>
    refine ⟨hperm, ?_, ?_⟩
    · intro hca hcl
      exact absurd (show (true : Bool) = false from hcl) (by simp)
    · intro hca hcl hw
      cases hclosed : s.closed with
      | true => exact hdrained hca hclosed hw
      | false =>
        have := hlive hca hclosed
        have hw0 : s.workers = 0 := hw
        omega

theorem poolInvariant_reachable (B n : Nat) (hn : 1 ≤ n) (s : PoolState)
    (h : PoolReachable B n s) : poolInvariant n s := by
  induction h with
  | refl => exact poolInvariant_init n hn
  | tail _ hstep ih => exact poolInvariant_step B n hn _ _ ih hstep

/-! ## Claim theorems -/

/-- C2: before dispatch the batch handler normalizes the input ids —
every retained id is the trimmed, lowercased form of some raw input and
is nonempty, the retained list is duplicate-free — and when
normalization leaves nothing (for a request that passed the earlier
size checks) the handler fails with the invalid-input error
`no valid usernames provided` and produces no report, so the batch is
never started. -/
theorem batch_normalizes_before_dispatch (us : List String) :
    (∀ v ∈ normalizeUsernames us,
      (∃ u ∈ us, v = goTrimSpace (goToLower u)) ∧ v ≠ "") ∧
    (normalizeUsernames us).Nodup ∧
    (∀ (U : Type) (mc ts : Int) (env : BatchEnv U),
      us ≠ [] → us.length ≤ 100 → normalizeUsernames us = [] →
      batchProcessUsers U ⟨us, mc, ts⟩ env = .error .noValidUsernames) := by
  refine ⟨?_, nodup_normLoop us [] List.nodup_nil, ?_⟩
  · intro v hv
    rcases mem_normLoop v us [] hv with h | h
    · cases h
    · exact h
  · intro U mc ts env hne hlen hnorm
    have h0 : ¬ us.length = 0 := by
      intro h
      exact hne (List.length_eq_zero.1 h)
    have h100 : ¬ us.length > 100 := by omega
    simp only [batchProcessUsers]
    rw [if_neg h0, if_neg h100, hnorm]
    simp

/-- Witness for C2 at concrete inputs: `["Alice", " ALICE ", ""]`
normalizes without duplicates, and a request of only-whitespace
usernames is rejected with the invalid-input error. -/
theorem batch_normalizes_before_dispatch_witness :
    (normalizeUsernames ["Alice", " ALICE ", ""]).Nodup ∧
    batchProcessUsers Unit ⟨[" ", "\t"], 5, 300⟩
      { arrivals := [], ctxErrMsg := "context deadline exceeded",
        nowSynth := 0, startedAt := 0, completedAt := 0 } =
      .error .noValidUsernames :=
  ⟨(batch_normalizes_before_dispatch ["Alice", " ALICE ", ""]).2.1,
   (batch_normalizes_before_dispatch [" ", "\t"]).2.2 Unit 5 300 _
     (by decide) (by decide) (by decide)⟩

/-- C5: an item whose fetch (scrape) succeeds is reported with status
`success` and the fetched record, no matter whether the subsequent
upsert failed — persistence failure never flips the public status. -/
theorem persist_failure_keeps_success (U : Type) (emsg : String) (now : Nat)
    (username : String) (env : ItemEnv U) (u : U)
    (h1 : env.ctxDoneAtStart = false) (h2 : env.dbUser = none)
    (h3 : env.ctxDoneAtRate = false) (h4 : env.scrape = .ok u)
    (_h5 : env.upsertErr ≠ none) :
    (workerStep U emsg now username env).status = "success" ∧
    (workerStep U emsg now username env).user = some u := by
  simp [workerStep, h1, h2, h3, h4]

/-- Witness for C5: a concrete item whose scrape succeeds and whose
upsert fails is still reported as `success`. -/
theorem persist_failure_keeps_success_witness :
    (workerStep String "ctx" 1 "alice"
      ⟨false, none, false, .ok "record", some "upsert failed"⟩).status =
        "success" ∧
    (workerStep String "ctx" 1 "alice"
      ⟨false, none, false, .ok "record", some "upsert failed"⟩).user =
        some "record" :=
  persist_failure_keeps_success String "ctx" 1 "alice"
    ⟨false, none, false, .ok "record", some "upsert failed"⟩ "record"
    rfl rfl rfl rfl (by simp)

/-- C8: the effective concurrency always lies in `[1, 20]` — an unset
or nonpositive request value defaults to 5, an in-range value is kept,
an over-range value is clamped to 20 — and an unset or nonpositive
timeout defaults to 300 seconds. -/
theorem concurrency_clamped_timeout_defaulted (mc ts : Int) :
    1 ≤ effectiveConcurrency mc ∧ effectiveConcurrency mc ≤ 20 ∧
    (mc ≤ 0 → effectiveConcurrency mc = 5) ∧
    (0 < mc → mc ≤ 20 → effectiveConcurrency mc = mc) ∧
    (20 < mc → effectiveConcurrency mc = 20) ∧
    (ts ≤ 0 → effectiveTimeout ts = 300) ∧
    (0 < ts → effectiveTimeout ts = ts) := by
  simp only [effectiveConcurrency, effectiveTimeout]
  split_ifs <;> omega

/-- Witness for C8 at concrete inputs: `-3` defaults to 5, `50` clamps
to 20, timeout `0` defaults to 300. -/
theorem concurrency_clamped_timeout_defaulted_witness :
    effectiveConcurrency (-3) = 5 ∧ effectiveConcurrency 50 = 20 ∧
    1 ≤ effectiveConcurrency 7 ∧ effectiveConcurrency 7 ≤ 20 ∧
    effectiveTimeout 0 = 300 :=
  ⟨(concurrency_clamped_timeout_defaulted (-3) 0).2.2.1 (by decide),
   (concurrency_clamped_timeout_defaulted 50 0).2.2.2.2.1 (by decide),
   (concurrency_clamped_timeout_defaulted 7 0).1,
   (concurrency_clamped_timeout_defaulted 7 0).2.1,
   (concurrency_clamped_timeout_defaulted (-3) 0).2.2.2.2.2.1 (by decide)⟩

/-- C9: a request whose raw username list has more than 100 entries is
rejected with the `maximum 100 users per batch` error before
normalization or dispatch, whatever the collaborators would have done —
no report is produced. -/
theorem oversized_batch_rejected (U : Type) (req : BatchRequest)
    (env : BatchEnv U) (h : req.usernames.length > 100) :
    batchProcessUsers U req env = .error .tooManyUsernames := by
  have h0 : ¬ req.usernames.length = 0 := by omega
  simp only [batchProcessUsers]
  rw [if_neg h0, if_pos h]

/-- Witness for C9: a batch of 101 usernames is rejected. -/
theorem oversized_batch_rejected_witness :
    batchProcessUsers Unit ⟨List.replicate 101 "alice", 5, 300⟩
      { arrivals := [], ctxErrMsg := "e", nowSynth := 0, startedAt := 0,
        completedAt := 0 } = .error .tooManyUsernames :=
  oversized_batch_rejected Unit _ _ (by norm_num)

/-- C1: every accepted batch request yields a report with
`total = len(results) = successful + failed`, and
`successful + failed` equals the number of deduplicated, normalized
input ids — for every possible arrival sequence, including those cut
short by the overall timeout, in which case at least the unresolved
count is reported as failed rather than omitted. -/
theorem batch_report_counts (U : Type) (req : BatchRequest) (env : BatchEnv U)
    (resp : BatchResponse U) (h : batchProcessUsers U req env = .ok resp) :
    resp.summary.total = resp.results.length ∧
    resp.results.length = resp.summary.successful + resp.summary.failed ∧
    resp.summary.successful + resp.summary.failed =
      (normalizeUsernames req.usernames).length ∧
    (normalizeUsernames req.usernames).length - env.arrivals.length ≤
      resp.summary.failed := by
  simp only [batchProcessUsers] at h
  by_cases h0 : req.usernames.length = 0
  · rw [if_pos h0] at h; simp at h
  rw [if_neg h0] at h
  by_cases h100 : req.usernames.length > 100
  · rw [if_pos h100] at h; simp at h
  rw [if_neg h100] at h
  by_cases hu : (normalizeUsernames req.usernames).length = 0
  · rw [if_pos hu] at h; simp at h
  rw [if_neg hu] at h
  injection h with h
  subst h
  dsimp only
  refine ⟨?_, ?_, ?_, ?_⟩
  · rw [length_sortResults, length_collectResults]
  · rw [length_sortResults, length_collectResults,
      countSuccess_add_countFail, length_collectResults]
  · rw [countSuccess_add_countFail, length_collectResults]
  · rw [collectResults_eq_take_append]
    have hrep := countFail_replicate_synth U env.ctxErrMsg env.nowSynth
      ((normalizeUsernames req.usernames).length - env.arrivals.length)
    simp only [countFail, List.countP_append] at hrep ⊢
    omega

/-- The concrete request for the C1 witness. -/
def c1Req : BatchRequest := ⟨["Alice", " bob ", "ALICE"], 0, 0⟩

/-- The concrete environment for the C1 witness: only one of the two
deduplicated ids resolves before the deadline. -/
def c1Env : BatchEnv Unit :=
  { arrivals := [⟨"bob", "success", some (), "", 1⟩],
    ctxErrMsg := "context deadline exceeded", nowSynth := 2,
    startedAt := 0, completedAt := 3 }

/-- The report the handler produces for `c1Req` in `c1Env`. -/
def c1Resp : BatchResponse Unit :=
  { results := [⟨"", "error", none, "context deadline exceeded", 2⟩,
                ⟨"bob", "success", some (), "", 1⟩],
    summary := { total := 2, successful := 1, failed := 1,
                 startedAt := 0, completedAt := 3 } }

/-- Witness for C1 on a concrete timed-out batch: three raw ids
deduplicate to two, one arrives, the unresolved one is synthesized as a
failure, and all counts agree. -/
theorem batch_report_counts_witness :
    c1Resp.summary.total = c1Resp.results.length ∧
    c1Resp.results.length = c1Resp.summary.successful + c1Resp.summary.failed ∧
    c1Resp.summary.successful + c1Resp.summary.failed =
      (normalizeUsernames c1Req.usernames).length ∧
    (normalizeUsernames c1Req.usernames).length - c1Env.arrivals.length ≤
      c1Resp.summary.failed :=
  batch_report_counts Unit c1Req c1Env c1Resp rfl

/-- C10: results synthesized at the deadline carry an empty username
and no user record; the collection loop emits exactly the received
results followed by such synthesized padding; every normalized input id
is nonempty (so no synthesized result can be matched to an input id);
and after the final sort any entry with an empty username precedes
every entry with a nonempty one (whenever position `j` holds an empty
username, every earlier position does too). -/
theorem synthesized_results_unmatchable (U : Type) (c : String) (now : Nat) :
    ((synthResult U c now).username = "" ∧ (synthResult U c now).user = none) ∧
    (∀ (n : Nat) (arr : List (UserResult U)),
      collectResults U c now n arr =
        arr.take n ++ List.replicate (n - arr.length) (synthResult U c now)) ∧
    (∀ (us : List String) (v : String), v ∈ normalizeUsernames us → v ≠ "") ∧
    (∀ (rs : List (UserResult U)) (i j : Nat)
      (hi : i < (sortResults U rs).length)
      (hj : j < (sortResults U rs).length),
      i < j → ((sortResults U rs).get ⟨j, hj⟩).username = "" →
      ((sortResults U rs).get ⟨i, hi⟩).username = "") := by
  refine ⟨⟨rfl, rfl⟩, collectResults_eq_take_append U c now, ?_, ?_⟩
  · intro us v hv
    rcases mem_normLoop v us [] hv with h | h
    · cases h
    · exact h.2
  · intro rs i j hi hj hij hjname
    have hp := pairwise_sortResults U rs
    rw [List.pairwise_iff_getElem] at hp
    have hle := hp i j hi hj hij
    simp only [usernameLE] at hle
    rw [List.get_eq_getElem] at hjname ⊢
    rw [hjname] at hle
    exact goStringLt_nil_left_eq_false hle

/-- A concrete collected list for the C10 witness: one named result and
two deadline-synthesized ones, out of order. -/
def c10Demo : List (UserResult Unit) :=
  [⟨"b", "success", some (), "", 1⟩, ⟨"", "error", none, "ctx", 2⟩,
   ⟨"", "error", none, "ctx", 3⟩]

/-- Witness for C10: collection pads with the empty-username synthesized
result, a concrete normalized id is nonempty, and after sorting
`c10Demo` the empty-username entries sit in front. -/
theorem synthesized_results_unmatchable_witness :
    collectResults Unit "ctx" 7 2 [] =
      List.replicate 2 (synthResult Unit "ctx" 7) ∧
    ("alice" : String) ≠ "" ∧
    ((sortResults Unit c10Demo).get ⟨0, by decide⟩).username = "" :=
  ⟨(synthesized_results_unmatchable Unit "ctx" 7).2.1 2 [],
   (synthesized_results_unmatchable Unit "ctx" 7).2.2.1 ["Alice"] "alice"
     (by decide),
   (synthesized_results_unmatchable Unit "ctx" 7).2.2.2 c10Demo 0 1
     (by decide) (by decide) (by decide) (by decide)⟩

/-- C3: when an attempt fails with the `UserNotFoundError`
classification, `retryWithBackoff` returns that attempt's triple
immediately — one `operation` call, no waits — so an id whose fetch
always yields NotFound costs exactly one attempt. -/
theorem notfound_returns_without_retry (op : Nat → OpResult) (cd : Nat → Bool)
    (ctxe : GoErr) (h : isUserNotFound (op 0).err = true) :
    retryWithBackoff op cd ctxe = ⟨1, [], op 0⟩ := by
  have hs : attemptSucceeded (op 0) = false := by
    rcases he : (op 0).err with _ | e
    · rw [he] at h; simp [isUserNotFound] at h
    · simp [attemptSucceeded, he]
  rw [retryWithBackoff]
  show retryLoop op cd ctxe (4 + 1) 0 none none = _
  rw [retryLoop]
  simp [hs, h]

/-- A concrete NotFound attempt outcome for the C3 witness. -/
def c3Op : OpResult :=
  ⟨none, some "404 body", some (.userNotFound "ghost" "HTTP 404")⟩

/-- Witness for C3: a fetch that always returns NotFound is attempted
exactly once and its triple is returned unchanged. -/
theorem notfound_returns_without_retry_witness :
    retryWithBackoff (fun _ => c3Op) (fun _ => false)
      (.ctxError "context canceled") = ⟨1, [], c3Op⟩ :=
  notfound_returns_without_retry (fun _ => c3Op) (fun _ => false)
    (.ctxError "context canceled") (by decide)

/-- C4: when every attempt fails with a retryable (non-NotFound) error
and the context never expires, `retryWithBackoff` makes exactly
`maxRetries = 5` attempts, waits `500ms * 2^attempt` between
consecutive attempts, and returns the last observed error (with a `nil`
response); a generic last error is of the spec's `Transient` kind. -/
theorem retry_exhausts_all_attempts (op : Nat → OpResult) (cd : Nat → Bool)
    (ctxe : GoErr)
    (hfail : ∀ n, attemptSucceeded (op n) = false)
    (hnf : ∀ n, isUserNotFound (op n).err = false)
    (hcd : ∀ n, cd n = false) :
    retryWithBackoff op cd ctxe =
      ⟨5, [500, 1000, 2000, 4000], ⟨none, (op 4).body, (op 4).err⟩⟩ ∧
    (∀ m, (op 4).err = some (.generic m) →
      (retryWithBackoff op cd ctxe).result.err = some (.generic m) ∧
      classifyErr (.generic m) = .transient) := by
  have hmain : retryWithBackoff op cd ctxe =
      ⟨5, [500, 1000, 2000, 4000], ⟨none, (op 4).body, (op 4).err⟩⟩ := by
    rw [retryWithBackoff]
    show retryLoop op cd ctxe (4 + 1) 0 none none = _
    rw [retryLoop]
    simp only [hfail, hnf, hcd, Bool.false_eq_true, if_false]
    norm_num [retryLoop, hfail, hnf, hcd, baseDelayMS]
  refine ⟨hmain, fun m hm => ⟨?_, rfl⟩⟩
  rw [hmain, hm]

/-- A concrete always-transiently-failing attempt outcome for the C4
witness. -/
def c4Op : OpResult := ⟨none, some "boom", some (.generic "HTTP 500")⟩

/-- Witness for C4: five attempts, the four exponential waits, and the
last generic error returned and classified Transient. -/
theorem retry_exhausts_all_attempts_witness :
    retryWithBackoff (fun _ => c4Op) (fun _ => false)
      (.ctxError "context canceled") =
      ⟨5, [500, 1000, 2000, 4000],
        ⟨none, some "boom", some (.generic "HTTP 500")⟩⟩ ∧
    classifyErr (.generic "HTTP 500") = .transient := by
  have h := retry_exhausts_all_attempts (fun _ => c4Op) (fun _ => false)
    (.ctxError "context canceled") (fun _ => rfl) (fun _ => rfl)
    (fun _ => rfl)
  exact ⟨h.1, (h.2 "HTTP 500" rfl).2⟩

/-- C7: starting from the full bucket, no interleaving of background
refills and worker acquisitions ever pushes the token count above
capacity; one refill tick adds at most one token and is discarded on a
full bucket. -/
theorem tokens_bounded_by_capacity (cap : Nat) (ops : List TokenOp) :
    runTokenOps cap ops ≤ cap ∧
    (∀ t : Nat, applyTokenOp cap t TokenOp.refill ≤ t + 1) ∧
    applyTokenOp cap cap TokenOp.refill = cap := by
  refine ⟨foldl_tokenOps_le_cap cap ops cap le_rfl, ?_, ?_⟩
  · intro t
    simp only [applyTokenOp]
    split_ifs <;> omega
  · simp [applyTokenOp]

/-- The state reached by: accept task 7, cancel the pool context, let
the single worker exit via `ctx.Done()`, then `Stop` (close + wg.Wait).
Task 7 was accepted but never processed. -/
def droppedState : PoolState :=
  { queue := [7], accepted := [7], processed := [], closed := true,
    cancelled := true, workers := 0 }

/-- C6 counterexample: the pool can reach a state where `Stop` has
returned while an accepted task is still buffered and unprocessed — the
worker's `select` took the `ctx.Done()` branch — so the processed log
is not a permutation of the accepted log. -/
theorem pool_can_drop_accepted_task :
    PoolReachable 2 1 droppedState ∧ stopReturned droppedState ∧
    ¬ droppedState.processed.Perm droppedState.accepted := by
  refine ⟨?_, ⟨rfl, rfl⟩, by decide⟩
  refine Relation.ReflTransGen.head
    (PoolStep.enqueue 7 (initPool 1) rfl (by decide)) ?_
  refine Relation.ReflTransGen.head (PoolStep.cancel _) ?_
  refine Relation.ReflTransGen.head
    (PoolStep.exitCancelled _ (by decide) rfl) ?_
  refine Relation.ReflTransGen.head (PoolStep.close _) ?_
  exact Relation.ReflTransGen.refl

/-- C6 (amended): every accepted task is processed at most once, and
when the pool's internal context is never cancelled, after `Stop`
returns every accepted task has been processed exactly once; if the
context is cancelled with accepted tasks still buffered, workers may
exit and leave them unprocessed. -/
theorem pool_processes_accepted_at_most_once (B n : Nat) (hn : 1 ≤ n)
    (s : PoolState) (h : PoolReachable B n s) :
    (∀ t, s.processed.count t ≤ s.accepted.count t) ∧
    (s.cancelled = false → stopReturned s →
      s.processed.Perm s.accepted) := by
  have inv := poolInvariant_reachable B n hn s h
  obtain ⟨hperm, hlive, hdrained⟩ := inv
  constructor
  · intro t
    have hc := hperm.count_eq t
    rw [List.count_append] at hc
    omega
  · rintro hca ⟨hcl, hw⟩
    have hq := hdrained hca hcl hw
    rw [hq, List.append_nil] at hperm
    exact hperm

/-- The state reached by: accept task 3, process it, `Stop` (close, the
worker drains and exits) — no cancellation. -/
def drainedState : PoolState :=
  { queue := [], accepted := [3], processed := [3], closed := true,
    cancelled := false, workers := 0 }

/-- Witness for the amended C6 on a concrete uncancelled run: the one
accepted task is processed exactly once. -/
theorem pool_processes_accepted_at_most_once_witness :
    drainedState.processed.Perm drainedState.accepted ∧
    drainedState.processed.count 3 ≤ drainedState.accepted.count 3 := by
  have hreach : PoolReachable 2 1 drainedState := by
    refine Relation.ReflTransGen.head
      (PoolStep.enqueue 3 (initPool 1) rfl (by decide)) ?_
    refine Relation.ReflTransGen.head
      (PoolStep.take 3 [] _ (by decide) rfl) ?_
    refine Relation.ReflTransGen.head (PoolStep.close _) ?_
    refine Relation.ReflTransGen.head
      (PoolStep.exitClosed _ (by decide) rfl rfl) ?_
    exact Relation.ReflTransGen.refl
  have h := pool_processes_accepted_at_most_once 2 1 (by decide)
    drainedState hreach
  exact ⟨h.2 rfl ⟨rfl, rfl⟩, h.1 3⟩

end InstagramProcessor
